import Mathlib

/-!
Verification of the Deribit analytics engine of this repository
(`analysis/analytics_prototype_v4_comprehensive.py`).

Modelling conventions: numbers the Python code stores as floats are
modelled as rationals (`ℚ`), so all arithmetic is exact; Python
dictionaries are modelled as association lists kept in insertion order;
instrument names are modelled as `List Char`.
-/

namespace Analytics

/-- Key price level with distance to current spot (dataclass `KeyLevel`). -/
structure KeyLevel where
  name : String
  value : ℚ
  distance_to_spot : ℚ
  confidence : ℚ
deriving DecidableEq

/-- Percentage distance from spot (`calculate_distance_to_spot`). -/
def calculate_distance_to_spot (level spot : ℚ) : ℚ :=
  (level - spot) / spot * 100

/-- Confidence score based on distance from spot (inner function
`calculate_confidence` of `generate_key_levels`). -/
def calculate_confidence (base_confidence distance_pct : ℚ) : ℚ :=
  min 1 (base_confidence * max (1/10) (1 - |distance_pct| / 100))

/-- Base-confidence lookup (`confidence_map` of `generate_key_levels`,
with default `0.3` for unknown level names). -/
def confidence_map : String → ℚ
  | "1D Max" => 0.8
  | "1D Min" => 0.7
  | "HVL" => 0.6
  | "Call Resistance" => 0.5
  | "Put Support" => 0.4
  | "Call Resistance 0DTE" => 0.7
  | "Put Support 0DTE" => 0.8
  | "Call Resistance 1W" => 0.5
  | "Put Support 1W" => 0.4
  | "Call Resistance 1M" => 0.4
  | "Put Support 1M" => 0.1
  | "Gamma Wall (Short Gamma)" => 0.6
  | "Gamma Wall (Long Gamma)" => 0.6
  | "HVS" => 0.5
  | "Max Pain Flow" => 0.4
  | "Call Flow Resistance" => 0.4
  | "Put Flow Support" => 0.4
  | "VWAS" => 0.3
  | _ => 0.3

/-- Comparison used by the final `key_levels.sort`: ascending absolute
distance to spot. -/
def klLE (a b : KeyLevel) : Prop :=
  |a.distance_to_spot| ≤ |b.distance_to_spot|

instance : DecidableRel klLE :=
  fun a b => inferInstanceAs (Decidable (|a.distance_to_spot| ≤ |b.distance_to_spot|))

instance : IsTotal KeyLevel klLE :=
  ⟨fun _ _ => le_total _ _⟩

instance : IsTrans KeyLevel klLE :=
  ⟨fun _ _ _ h h' => le_trans h h'⟩

/-- Final loop of `generate_key_levels`: keep only positive prices,
attach distance and confidence, sort ascending by absolute distance. -/
def composeKeyLevels (all_levels : List (String × ℚ)) (spot : ℚ) : List KeyLevel :=
  List.insertionSort klLE
    ((all_levels.filter (fun p => decide (0 < p.2))).map (fun p =>
      { name := p.1
        value := p.2
        distance_to_spot := calculate_distance_to_spot p.2 spot
        confidence := calculate_confidence (confidence_map p.1)
          (calculate_distance_to_spot p.2 spot) }))

/-- Ascending-by-strike comparison used when sorting call strikes. -/
def pairLE (a b : ℚ × ℚ) : Prop := a.1 ≤ b.1

/-- Descending-by-strike comparison used when sorting put strikes. -/
def pairGE (a b : ℚ × ℚ) : Prop := b.1 ≤ a.1

instance : DecidableRel pairLE :=
  fun a b => inferInstanceAs (Decidable (a.1 ≤ b.1))

instance : DecidableRel pairGE :=
  fun a b => inferInstanceAs (Decidable (b.1 ≤ a.1))

instance : IsTotal (ℚ × ℚ) pairLE :=
  ⟨fun _ _ => le_total _ _⟩

instance : IsTrans (ℚ × ℚ) pairLE :=
  ⟨fun _ _ _ h h' => le_trans h h'⟩

instance : IsTotal (ℚ × ℚ) pairGE :=
  ⟨fun _ _ => le_total _ _⟩

instance : IsTrans (ℚ × ℚ) pairGE :=
  ⟨fun _ _ _ h h' => le_trans h' h⟩

/-- `filter_call_strikes` (inner function of `calculate_option_levels`):
keep strikes strictly above spot and within the band, sort ascending by
strike, keep the first 10. -/
def filter_call_strikes (spot band : ℚ) (strikes : List (ℚ × ℚ)) : List (ℚ × ℚ) :=
  (List.insertionSort pairLE
    (strikes.filter (fun p => decide (spot < p.1 ∧ p.1 ≤ spot * (1 + band / 100))))).take 10

/-- `filter_put_strikes` (inner function of `calculate_option_levels`):
keep strikes strictly below spot and within the band, sort descending by
strike, keep the first 10. -/
def filter_put_strikes (spot band : ℚ) (strikes : List (ℚ × ℚ)) : List (ℚ × ℚ) :=
  (List.insertionSort pairGE
    (strikes.filter (fun p => decide (p.1 < spot ∧ spot * (1 - band / 100) ≤ p.1)))).take 10

/-- C1: for every merged level map and positive spot, the composed key
levels all have positive price, their `distance_to_spot` equals
`(price - spot)/spot * 100`, and the output is sorted ascending by
absolute distance to spot. -/
theorem C1_composed_levels (all_levels : List (String × ℚ)) (spot : ℚ)
    (hspot : 0 < spot) :
    (∀ kl ∈ composeKeyLevels all_levels spot,
        0 < kl.value ∧ kl.distance_to_spot = (kl.value - spot) / spot * 100) ∧
    List.Sorted klLE (composeKeyLevels all_levels spot) := by
  constructor
  · intro kl hkl
    have hmem := (List.perm_insertionSort klLE _).subset hkl
    rcases List.mem_map.mp hmem with ⟨p, hp, rfl⟩
    have hf := List.mem_filter.mp hp
    exact ⟨of_decide_eq_true hf.2, rfl⟩
  · exact List.sorted_insertionSort klLE _

/-- Witness for C1 at a concrete merged level map and spot price. -/
theorem C1_composed_levels_witness :
    (0 : ℚ) < 1 ∧
    ((∀ kl ∈ composeKeyLevels [("HVL", 2), ("1D Max", 1)] 1,
        0 < kl.value ∧ kl.distance_to_spot = (kl.value - 1) / 1 * 100) ∧
      List.Sorted klLE (composeKeyLevels [("HVL", 2), ("1D Max", 1)] 1)) :=
  ⟨by norm_num, C1_composed_levels [("HVL", 2), ("1D Max", 1)] 1 (by norm_num)⟩

/-- C2 counterexample: with base confidence `1/2`, the confidence is not
strictly decreasing in absolute distance — it is already constant between
distances 90 and 95, because the `max (1/10, ...)` floor is reached at
distance 90, not only at 100. -/
theorem C2_counterexample :
    (0 : ℚ) < 1/2 ∧ (1/2 : ℚ) ≤ 1 ∧ |(90 : ℚ)| < |(95 : ℚ)| ∧
      ¬ calculate_confidence (1/2) 95 < calculate_confidence (1/2) 90 := by
  refine ⟨by norm_num, by norm_num, by rw [abs_of_nonneg, abs_of_nonneg] <;> norm_num, ?_⟩
  simp only [calculate_confidence]
  rw [abs_of_nonneg (by norm_num), abs_of_nonneg (by norm_num)]
  norm_num

/-- Unclamped form of the confidence: when the base confidence is at
most 1, the outer `min 1` never bites. -/
theorem calculate_confidence_eq (base d : ℚ) (hb0 : 0 ≤ base) (hb1 : base ≤ 1) :
    calculate_confidence base d = base * max (1/10) (1 - |d| / 100) := by
  unfold calculate_confidence
  have habs : (0 : ℚ) ≤ |d| := abs_nonneg d
  have hfac : max (1/10 : ℚ) (1 - |d| / 100) ≤ 1 := by
    apply max_le <;> [norm_num; linarith]
  have : base * max (1/10 : ℚ) (1 - |d| / 100) ≤ 1 := by
    calc base * max (1/10 : ℚ) (1 - |d| / 100) ≤ 1 * 1 := by
          apply mul_le_mul hb1 hfac _ (by norm_num)
          positivity
      _ = 1 := by norm_num
  exact min_eq_right this

/-- C2 (amended): for base confidence in `(0, 1]` the computed confidence
equals `min 1 (base * max (1/10) (1 - |d|/100))`, lies in `[0, 1]`, equals
the base at distance 0, is non-increasing in `|d|`, strictly decreasing
as long as `|d| ≤ 90`, and equals exactly the floor `base/10` whenever
`|d| ≥ 90` — in particular for all `|d| ≥ 100`. -/
theorem C2_confidence_shape (base : ℚ) (hb0 : 0 < base) (hb1 : base ≤ 1) :
    (∀ d, calculate_confidence base d =
        min 1 (base * max (1/10) (1 - |d| / 100))) ∧
    (∀ d, 0 ≤ calculate_confidence base d ∧ calculate_confidence base d ≤ 1) ∧
    calculate_confidence base 0 = base ∧
    (∀ d₁ d₂, |d₁| ≤ |d₂| →
        calculate_confidence base d₂ ≤ calculate_confidence base d₁) ∧
    (∀ d₁ d₂, |d₁| < |d₂| → |d₂| ≤ 90 →
        calculate_confidence base d₂ < calculate_confidence base d₁) ∧
    (∀ d, 90 ≤ |d| → calculate_confidence base d = base / 10) := by
  have hb0' : (0 : ℚ) ≤ base := le_of_lt hb0
  refine ⟨fun d => rfl, ?_, ?_, ?_, ?_, ?_⟩
  · intro d
    rw [calculate_confidence_eq base d hb0' hb1]
    constructor
    · have : (0 : ℚ) < max (1/10 : ℚ) (1 - |d| / 100) :=
        lt_max_of_lt_left (by norm_num)
      positivity
    · have habs : (0 : ℚ) ≤ |d| := abs_nonneg d
      have hfac : max (1/10 : ℚ) (1 - |d| / 100) ≤ 1 := by
        apply max_le <;> [norm_num; linarith]
      calc base * max (1/10 : ℚ) (1 - |d| / 100) ≤ 1 * 1 := by
            apply mul_le_mul hb1 hfac _ (by norm_num)
            positivity
        _ = 1 := by norm_num
  · rw [calculate_confidence_eq base 0 hb0' hb1]
    simp only [abs_zero]
    rw [show max (1/10 : ℚ) (1 - 0 / 100) = 1 by norm_num]
    ring
  · intro d₁ d₂ h
    rw [calculate_confidence_eq base d₁ hb0' hb1, calculate_confidence_eq base d₂ hb0' hb1]
    apply mul_le_mul_of_nonneg_left _ hb0'
    apply max_le_max le_rfl
    linarith
  · intro d₁ d₂ h h90
    rw [calculate_confidence_eq base d₁ hb0' hb1, calculate_confidence_eq base d₂ hb0' hb1]
    have h1 : max (1/10 : ℚ) (1 - |d₂| / 100) = 1 - |d₂| / 100 :=
      max_eq_right (by linarith)
    have h2 : max (1/10 : ℚ) (1 - |d₁| / 100) = 1 - |d₁| / 100 :=
      max_eq_right (by linarith)
    rw [h1, h2]
    apply mul_lt_mul_of_pos_left _ hb0
    linarith
  · intro d h
    rw [calculate_confidence_eq base d hb0' hb1]
    rw [max_eq_left (by linarith)]
    ring

/-- Witness for C2's amended theorem at base confidence `1/2`. -/
theorem C2_confidence_shape_witness :
    (0 : ℚ) < 1/2 ∧ (1/2 : ℚ) ≤ 1 ∧ calculate_confidence (1/2) 0 = 1/2 :=
  ⟨by norm_num, by norm_num, (C2_confidence_shape (1/2) (by norm_num) (by norm_num)).2.2.1⟩

/-- C3: for every strike/open-interest map, positive spot and band, the
call filter returns only strikes in `(spot, spot*(1+band/100)]` sorted
ascending, the put filter returns only strikes in
`[spot*(1-band/100), spot)` sorted descending, and each returns at most
10 strikes. -/
theorem C3_band_filters (spot band : ℚ) (strikes : List (ℚ × ℚ)) (hspot : 0 < spot) :
    (∀ p ∈ filter_call_strikes spot band strikes,
        spot < p.1 ∧ p.1 ≤ spot * (1 + band / 100)) ∧
    List.Sorted pairLE (filter_call_strikes spot band strikes) ∧
    (filter_call_strikes spot band strikes).length ≤ 10 ∧
    (∀ p ∈ filter_put_strikes spot band strikes,
        spot * (1 - band / 100) ≤ p.1 ∧ p.1 < spot) ∧
    List.Sorted pairGE (filter_put_strikes spot band strikes) ∧
    (filter_put_strikes spot band strikes).length ≤ 10 := by
  refine ⟨?_, ?_, ?_, ?_, ?_, ?_⟩
  · intro p hp
    have hp' := (List.perm_insertionSort pairLE _).subset (List.mem_of_mem_take hp)
    exact of_decide_eq_true (List.mem_filter.mp hp').2
  · exact List.Pairwise.sublist (List.take_sublist 10 _)
      (List.sorted_insertionSort pairLE _)
  · simpa [filter_call_strikes] using List.length_take_le 10 _
  · intro p hp
    have hp' := (List.perm_insertionSort pairGE _).subset (List.mem_of_mem_take hp)
    have h := of_decide_eq_true (List.mem_filter.mp hp').2
    exact ⟨h.2, h.1⟩
  · exact List.Pairwise.sublist (List.take_sublist 10 _)
      (List.sorted_insertionSort pairGE _)
  · simpa [filter_put_strikes] using List.length_take_le 10 _

/-- Witness for C3 at a concrete strike map, spot 100 and band 10. -/
theorem C3_band_filters_witness :
    (0 : ℚ) < 100 ∧
    ((∀ p ∈ filter_call_strikes 100 10 [(105, 3), (95, 2), (120, 1)],
        100 < p.1 ∧ p.1 ≤ 100 * (1 + 10 / 100)) ∧
      List.Sorted pairLE (filter_call_strikes 100 10 [(105, 3), (95, 2), (120, 1)]) ∧
      (filter_call_strikes 100 10 [(105, 3), (95, 2), (120, 1)]).length ≤ 10 ∧
      (∀ p ∈ filter_put_strikes 100 10 [(105, 3), (95, 2), (120, 1)],
        100 * (1 - 10 / 100) ≤ p.1 ∧ p.1 < 100) ∧
      List.Sorted pairGE (filter_put_strikes 100 10 [(105, 3), (95, 2), (120, 1)]) ∧
      (filter_put_strikes 100 10 [(105, 3), (95, 2), (120, 1)]).length ≤ 10) :=
  ⟨by norm_num, C3_band_filters 100 10 [(105, 3), (95, 2), (120, 1)] (by norm_num)⟩

/-- Timeframe buckets used by `calculate_option_levels`. -/
inductive Timeframe
  | dte0
  | current
  | week1
  | month1
deriving DecidableEq

/-- `is_0dte`: the expiry, adjusted to its 08:00 UTC settlement hour,
lies strictly within the next 24 hours.  `now` is in seconds since the
Unix epoch and `expiry_day` in whole days since the epoch (parsed expiry
datetimes sit at midnight UTC). -/
def is_0dte (now expiry_day : ℤ) : Bool :=
  decide (0 < expiry_day * 86400 + 28800 - now ∧
    expiry_day * 86400 + 28800 - now ≤ 24 * 3600)

/-- `is_current_weekly_monthly`: the expiry date equals the next Friday
(7 days out when today is Friday).  The weekday of a timestamp in
seconds is `(now / 86400 + 3) % 7` with Monday = 0, since the Unix
epoch fell on a Thursday; Python's floor division and nonnegative
modulo are `Int.fdiv` and `Int.emod`. -/
def is_current_weekly_monthly (now expiry_day : ℤ) : Bool :=
  let now_day := Int.fdiv now 86400
  let weekday := (now_day + 3) % 7
  let duf := (4 - weekday) % 7
  let days_until_friday := if duf = 0 then 7 else duf
  decide (expiry_day = now_day + days_until_friday)

/-- `is_1w_expiry`: days to expiry (Python `timedelta.days`, which
floors) lie in `[5, 12]`. -/
def is_1w_expiry (now expiry_day : ℤ) : Bool :=
  let days_diff := Int.fdiv (expiry_day * 86400 - now) 86400
  decide (5 ≤ days_diff ∧ days_diff ≤ 12)

/-- `is_1m_expiry`: days to expiry lie in `[20, 40]`. -/
def is_1m_expiry (now expiry_day : ℤ) : Bool :=
  let days_diff := Int.fdiv (expiry_day * 86400 - now) 86400
  decide (20 ≤ days_diff ∧ days_diff ≤ 40)

/-- Timeframe grouping of `calculate_option_levels`: the `if`/`elif`
cascade over the four expiry predicates, with unmatched instruments
defaulting to Current. -/
def classify (now expiry_day : ℤ) : Timeframe :=
  if is_0dte now expiry_day then .dte0
  else if is_current_weekly_monthly now expiry_day then .current
  else if is_1w_expiry now expiry_day then .week1
  else if is_1m_expiry now expiry_day then .month1
  else .current

/-- C4: every instrument with a parsed expiry is assigned exactly one of
the four buckets, the rules being evaluated in the order 0DTE, then
Current (next Friday, 7 days out when today is Friday), then 1W (days to
expiry in `[5,12]`), then 1M (days in `[20,40]`), with any unmatched
instrument assigned to Current. -/
theorem C4_classification (now expiry_day : ℤ) :
    (classify now expiry_day = .dte0 ↔ is_0dte now expiry_day) ∧
    (classify now expiry_day = .week1 ↔
      ¬ is_0dte now expiry_day ∧ ¬ is_current_weekly_monthly now expiry_day ∧
        is_1w_expiry now expiry_day) ∧
    (classify now expiry_day = .month1 ↔
      ¬ is_0dte now expiry_day ∧ ¬ is_current_weekly_monthly now expiry_day ∧
        ¬ is_1w_expiry now expiry_day ∧ is_1m_expiry now expiry_day) ∧
    (classify now expiry_day = .current ↔
      ¬ is_0dte now expiry_day ∧
        (is_current_weekly_monthly now expiry_day ∨
          (¬ is_1w_expiry now expiry_day ∧ ¬ is_1m_expiry now expiry_day))) := by
  unfold classify
  split_ifs with h1 h2 h3 h4 <;> simp_all

/-- Option instrument as consumed by the level calculators: expiry in
epoch days (absent when unparsed), strike, open interest, mark IV, and
whether the parsed option type was exactly `C`. -/
structure Instrument where
  expiry_day : Option ℤ
  strike : ℚ
  open_interest : ℚ
  mark_iv : ℚ
  is_call : Bool
deriving DecidableEq

/-- Python dictionary accumulation `d[k] = d.get(k, 0) + v`: update the
first (unique) entry with that key in place, or append the key at the
end. -/
def addOI : List (ℚ × ℚ) → ℚ → ℚ → List (ℚ × ℚ)
  | [], k, v => [(k, v)]
  | p :: ps, k, v => if p.1 = k then (p.1, p.2 + v) :: ps else p :: addOI ps k v

/-- One instrument's contribution inside `calculate_gamma_wall`: weight
`max(0.1, 1 - 5*moneyness)` times open interest, negated for puts. -/
def gammaStep (spot : ℚ) (m : List (ℚ × ℚ)) (i : Instrument) : List (ℚ × ℚ) :=
  if i.open_interest ≤ 0 then m
  else
    let moneyness := |spot - i.strike| / spot
    let gamma_weight := max (1/10) (1 - moneyness * 5)
    let contribution :=
      if i.is_call then gamma_weight * i.open_interest
      else -(gamma_weight * i.open_interest)
    addOI m i.strike contribution

/-- Per-strike net gamma accumulation of `calculate_gamma_wall`. -/
def strikeGamma (instruments : List Instrument) (spot : ℚ) : List (ℚ × ℚ) :=
  instruments.foldl (gammaStep spot) []

/-- Python's `max(items, key=lambda x: abs(x[1]))` over dictionary
entries: the first entry whose value has maximal absolute value. -/
def maxByAbs? : List (ℚ × ℚ) → Option (ℚ × ℚ)
  | [] => none
  | x :: xs => some (xs.foldl (fun b q => if |b.2| < |q.2| then q else b) x)

/-- `calculate_gamma_wall`: the strike with the largest absolute net
gamma, labelled Short Gamma for a negative net value and Long Gamma
otherwise. -/
def calculate_gamma_wall (instruments : List Instrument) (spot : ℚ) :
    List (String × ℚ) :=
  if instruments = [] then []
  else
    match maxByAbs? (strikeGamma instruments spot) with
    | none => []
    | some (s, v) =>
      [((if v < 0 then "Gamma Wall (Short Gamma)" else "Gamma Wall (Long Gamma)"), s)]

/-- The first-max fold returns its seed or an element of the list. -/
theorem maxAbsFold_mem (l : List (ℚ × ℚ)) (b : ℚ × ℚ) :
    l.foldl (fun b q => if |b.2| < |q.2| then q else b) b = b ∨
      l.foldl (fun b q => if |b.2| < |q.2| then q else b) b ∈ l := by
  induction l generalizing b with
  | nil => exact Or.inl rfl
  | cons x xs ih =>
    simp only [List.foldl_cons]
    rcases ih (if |b.2| < |x.2| then x else b) with h | h
    · rw [h]
      split_ifs with hc
      · exact Or.inr (List.mem_cons_self x xs)
      · exact Or.inl rfl
    · exact Or.inr (List.mem_cons_of_mem x h)

/-- The first-max fold dominates its seed and every list element. -/
theorem maxAbsFold_ge (l : List (ℚ × ℚ)) (b : ℚ × ℚ) :
    |b.2| ≤ |(l.foldl (fun b q => if |b.2| < |q.2| then q else b) b).2| ∧
      ∀ q ∈ l, |q.2| ≤ |(l.foldl (fun b q => if |b.2| < |q.2| then q else b) b).2| := by
  induction l generalizing b with
  | nil => exact ⟨le_rfl, by simp⟩
  | cons x xs ih =>
    simp only [List.foldl_cons]
    obtain ⟨h1, h2⟩ := ih (if |b.2| < |x.2| then x else b)
    have hb : |b.2| ≤ |(if |b.2| < |x.2| then x else b).2| := by
      split_ifs with hc
      · exact le_of_lt hc
      · exact le_rfl
    have hx : |x.2| ≤ |(if |b.2| < |x.2| then x else b).2| := by
      split_ifs with hc
      · exact le_rfl
      · exact le_of_not_lt hc
    refine ⟨le_trans hb h1, ?_⟩
    intro q hq
    rcases List.mem_cons.mp hq with rfl | hq'
    · exact le_trans hx h1
    · exact h2 q hq'

/-- `addOI` never produces the empty map. -/
theorem addOI_ne_nil (m : List (ℚ × ℚ)) (k v : ℚ) : addOI m k v ≠ [] := by
  cases m with
  | nil => simp [addOI]
  | cons p ps =>
    unfold addOI
    split_ifs <;> simp

/-- Folding gamma contributions never empties a nonempty map. -/
theorem gammaFold_ne_nil (spot : ℚ) (l : List Instrument) (m : List (ℚ × ℚ))
    (hm : m ≠ []) : l.foldl (gammaStep spot) m ≠ [] := by
  induction l generalizing m with
  | nil => exact hm
  | cons i is ih =>
    simp only [List.foldl_cons]
    apply ih
    unfold gammaStep
    split_ifs <;> first | exact hm | exact addOI_ne_nil _ _ _

/-- C5: for a nonempty list of 0DTE instruments with positive open
interest and a positive spot price, `calculate_gamma_wall` returns the
strike whose net contribution (weight `max(0.1, 1 - 5*|spot-strike|/spot)`
times open interest, negated for puts) has maximal absolute value, and
labels it Short Gamma when that net value is negative, Long Gamma
otherwise. -/
theorem C5_gamma_wall (instruments : List Instrument) (spot : ℚ)
    (hne : instruments ≠ []) (hoi : ∀ i ∈ instruments, 0 < i.open_interest)
    (hspot : 0 < spot) :
    ∃ s v, maxByAbs? (strikeGamma instruments spot) = some (s, v) ∧
      (s, v) ∈ strikeGamma instruments spot ∧
      (∀ q ∈ strikeGamma instruments spot, |q.2| ≤ |v|) ∧
      calculate_gamma_wall instruments spot =
        [((if v < 0 then "Gamma Wall (Short Gamma)" else "Gamma Wall (Long Gamma)"), s)] := by
  have hsg : strikeGamma instruments spot ≠ [] := by
    obtain ⟨i, is, rfl⟩ := List.exists_cons_of_ne_nil hne
    unfold strikeGamma
    simp only [List.foldl_cons]
    apply gammaFold_ne_nil
    have hi : 0 < i.open_interest := hoi i (List.mem_cons_self i is)
    unfold gammaStep
    rw [if_neg (not_le.mpr hi)]
    exact addOI_ne_nil _ _ _
  obtain ⟨x, xs, hx⟩ := List.exists_cons_of_ne_nil hsg
  set w := xs.foldl (fun b q => if |b.2| < |q.2| then q else b) x with hw
  obtain ⟨ws, wv⟩ := w
  have hmax : maxByAbs? (strikeGamma instruments spot) = some (ws, wv) := by
    rw [hx, hw]; rfl
  refine ⟨ws, wv, hmax, ?_, ?_, ?_⟩
  · rw [hx]
    rcases maxAbsFold_mem xs x with h | h
    · rw [hw, h]; exact List.mem_cons_self x xs
    · rw [hw]; exact List.mem_cons_of_mem x h
  · intro q hq
    rw [hx] at hq
    obtain ⟨h1, h2⟩ := maxAbsFold_ge xs x
    rw [← hw] at h1 h2
    rcases List.mem_cons.mp hq with rfl | hq'
    · exact h1
    · exact h2 q hq'
  · unfold calculate_gamma_wall
    rw [if_neg hne, hmax]

/-- Witness for C5 at a concrete instrument list and spot price. -/
theorem C5_gamma_wall_witness :
    ([⟨none, 100, 5, 0, true⟩, ⟨none, 90, 2, 0, false⟩] : List Instrument) ≠ [] ∧
    (∀ i ∈ ([⟨none, 100, 5, 0, true⟩, ⟨none, 90, 2, 0, false⟩] : List Instrument),
      0 < i.open_interest) ∧
    (0 : ℚ) < 100 ∧
    (∃ s v, maxByAbs?
        (strikeGamma [⟨none, 100, 5, 0, true⟩, ⟨none, 90, 2, 0, false⟩] 100) = some (s, v) ∧
      (s, v) ∈ strikeGamma [⟨none, 100, 5, 0, true⟩, ⟨none, 90, 2, 0, false⟩] 100 ∧
      (∀ q ∈ strikeGamma [⟨none, 100, 5, 0, true⟩, ⟨none, 90, 2, 0, false⟩] 100,
        |q.2| ≤ |v|) ∧
      calculate_gamma_wall [⟨none, 100, 5, 0, true⟩, ⟨none, 90, 2, 0, false⟩] 100 =
        [((if v < 0 then "Gamma Wall (Short Gamma)" else "Gamma Wall (Long Gamma)"), s)]) :=
  ⟨by decide, by decide, by norm_num,
    C5_gamma_wall [⟨none, 100, 5, 0, true⟩, ⟨none, 90, 2, 0, false⟩] 100
      (by decide) (by decide) (by norm_num)⟩

/-- Trade record with the fields the engine reads. -/
structure Trade where
  trade_id : Option String
  instrument_name : List Char
  amount : ℚ
  price : ℚ
  direction : String
  timestamp : ℤ
deriving DecidableEq

/-- Membership test `trade_id in unique_trades` on an association list. -/
def hasKey (m : List (String × Trade)) (i : String) : Bool :=
  m.any (fun p => decide (p.1 = i))

/-- Dictionary lookup on the deduplication map. -/
def lookupKey (m : List (String × Trade)) (i : String) : Option Trade :=
  (m.find? (fun p => decide (p.1 = i))).map Prod.snd

/-- One step of the deduplication loop in the fetchers: skip trades
without an id, keep the first trade seen for each id. -/
def dedupStep (m : List (String × Trade)) (t : Trade) : List (String × Trade) :=
  match t.trade_id with
  | none => m
  | some i => if hasKey m i then m else m ++ [(i, t)]

/-- `unique_trades` accumulation of `fetch_complete_options_trades` and
`fetch_complete_futures_trades`, run over the concatenation of all
fetched pages. -/
def dedupTrades (trades : List Trade) : List (String × Trade) :=
  trades.foldl dedupStep []

/-- `hasKey` agrees with lookup success. -/
theorem hasKey_eq_isSome (m : List (String × Trade)) (i : String) :
    hasKey m i = (lookupKey m i).isSome := by
  unfold hasKey lookupKey
  induction m with
  | nil => rfl
  | cons p ps ih =>
    by_cases h : p.1 = i
    · simp [h]
    · simp [List.find?_cons_of_neg, h, ih]

/-- Lookup distributes over list append. -/
theorem lookupKey_append (m m' : List (String × Trade)) (i : String) :
    lookupKey (m ++ m') i = (lookupKey m i).or (lookupKey m' i) := by
  unfold lookupKey
  rw [List.find?_append, Option.map_or']

/-- The deduplication fold looks up in the accumulator first, then at
the first matching trade in the remaining stream. -/
theorem dedupFold_lookup (ts : List Trade) (m : List (String × Trade)) (i : String) :
    lookupKey (ts.foldl dedupStep m) i =
      (lookupKey m i).or (ts.find? (fun t => decide (t.trade_id = some i))) := by
  induction ts generalizing m with
  | nil =>
    simp only [List.foldl_nil, List.find?_nil, Option.or_none]
  | cons t ts ih =>
    simp only [List.foldl_cons]
    rw [ih]
    cases ht : t.trade_id with
    | none =>
      have hstep : dedupStep m t = m := by simp [dedupStep, ht]
      rw [hstep, List.find?_cons_of_neg _ (by simp [ht])]
    | some j =>
      by_cases hij : j = i
      · subst hij
        cases hk : hasKey m j with
        | true =>
          have hstep : dedupStep m t = m := by simp [dedupStep, ht, hk]
          rw [hstep]
          have hs : (lookupKey m j).isSome := by rw [← hasKey_eq_isSome, hk]
          obtain ⟨tr, htr⟩ := Option.isSome_iff_exists.mp hs
          simp [htr]
        | false =>
          have hstep : dedupStep m t = m ++ [(j, t)] := by simp [dedupStep, ht, hk]
          have hnone : lookupKey m j = none := by
            have hiso := hasKey_eq_isSome m j
            rw [hk] at hiso
            cases h : lookupKey m j
            · rfl
            · rw [h] at hiso; simp at hiso
          rw [hstep, lookupKey_append, hnone]
          have h1 : lookupKey [(j, t)] j = some t := by simp [lookupKey]
          rw [List.find?_cons_of_pos _ (by simp [ht]), h1]
          simp
      · have hpred : ¬ (t.trade_id = some i) := by simp [ht, hij]
        rw [List.find?_cons_of_neg _ (by simpa using hpred)]
        cases hk : hasKey m j with
        | true =>
          have hstep : dedupStep m t = m := by simp [dedupStep, ht, hk]
          rw [hstep]
        | false =>
          have hstep : dedupStep m t = m ++ [(j, t)] := by simp [dedupStep, ht, hk]
          have h1 : lookupKey [(j, t)] i = none := by simp [lookupKey, hij]
          rw [hstep, lookupKey_append, h1, Option.or_none]

/-- The deduplication fold keeps the keys pairwise distinct. -/
theorem dedupFold_nodup (ts : List Trade) (m : List (String × Trade))
    (hm : (m.map Prod.fst).Nodup) :
    (((ts.foldl dedupStep m).map Prod.fst)).Nodup := by
  induction ts generalizing m with
  | nil => exact hm
  | cons t ts ih =>
    simp only [List.foldl_cons]
    apply ih
    cases ht : t.trade_id with
    | none => simpa [dedupStep, ht] using hm
    | some j =>
      simp only [dedupStep, ht]
      cases hk : hasKey m j with
      | true => exact hm
      | false =>
        simp only [Bool.false_eq_true, if_false, List.map_append]
        rw [List.nodup_append]
        refine ⟨hm, List.nodup_singleton j, ?_⟩
        intro a ha hb
        simp only [List.map_cons, List.map_nil, List.mem_singleton] at hb
        subst hb
        obtain ⟨p, hp, hpa⟩ := List.mem_map.mp ha
        have hka : hasKey m a = true := List.any_eq_true.mpr ⟨p, hp, by simp [hpa]⟩
        rw [hk] at hka
        exact Bool.false_ne_true hka

/-- C6: over the concatenation of any ordered sequence of trade pages,
deduplication yields a map with pairwise-distinct trade ids, whose
lookup at any id is exactly the first trade of the stream carrying that
id (first-seen wins), an id being present exactly when some trade
carries it; trades with a missing trade id are skipped. -/
theorem C6_dedup (pages : List (List Trade)) :
    ((dedupTrades pages.join).map Prod.fst).Nodup ∧
    (∀ i : String, lookupKey (dedupTrades pages.join) i =
      pages.join.find? (fun t => decide (t.trade_id = some i))) ∧
    (∀ i : String, (∃ p ∈ dedupTrades pages.join, p.1 = i) ↔
      ∃ t ∈ pages.join, t.trade_id = some i) := by
  refine ⟨dedupFold_nodup _ [] (by simp), fun i => ?_, fun i => ?_⟩
  · rw [dedupTrades, dedupFold_lookup]
    simp [lookupKey]
  · constructor
    · intro ⟨p, hp, hpi⟩
      have hs : (lookupKey (dedupTrades pages.join) i).isSome := by
        rw [← hasKey_eq_isSome]
        exact List.any_eq_true.mpr ⟨p, hp, by simp [hpi]⟩
      rw [dedupTrades, dedupFold_lookup] at hs
      simp only [lookupKey, List.find?_nil, Option.map_none', Option.none_or] at hs
      obtain ⟨t, ht⟩ := Option.isSome_iff_exists.mp hs
      exact ⟨t, List.mem_of_find?_eq_some ht, by simpa using List.find?_some ht⟩
    · intro ⟨t, ht, hti⟩
      have hs : (pages.join.find? (fun t => decide (t.trade_id = some i))).isSome :=
        List.find?_isSome.mpr ⟨t, ht, by simp [hti]⟩
      obtain ⟨tr, htr⟩ := Option.isSome_iff_exists.mp hs
      have hlk : lookupKey (dedupTrades pages.join) i = some tr := by
        rw [dedupTrades, dedupFold_lookup]
        simpa [lookupKey] using htr
      obtain ⟨p, hfind, hsnd⟩ := Option.map_eq_some'.mp hlk
      have hmem := List.mem_of_find?_eq_some hfind
      have hpred := List.find?_some hfind
      exact ⟨p, hmem, by simpa using hpred⟩

/-- Python's `str.split('-')` on a character list. -/
def splitDash : List Char → List (List Char)
  | [] => [[]]
  | c :: cs =>
    if c = '-' then [] :: splitDash cs
    else
      match splitDash cs with
      | [] => [[c]]
      | p :: ps => (c :: p) :: ps

/-- Decimal digit test. -/
def isDigitC (c : Char) : Bool := decide ('0' ≤ c ∧ c ≤ '9')

/-- Numeric value of a digit character. -/
def digitVal (c : Char) : ℕ := c.toNat - 48

/-- Python's `float` applied to the strike field, modelled for the
integral decimal strike strings Deribit names carry: every character
must be a digit. -/
def parseDigits? (l : List Char) : Option ℕ :=
  if l = [] then none
  else if l.all isDigitC then some (l.foldl (fun a c => 10 * a + digitVal c) 0)
  else none

/-- Calendar date produced by `datetime.strptime(expiry, "%d%b%y")`. -/
structure PDate where
  year : ℕ
  month : ℕ
  day : ℕ
deriving DecidableEq

/-- Month number of an uppercase three-letter month name. -/
def monthOfChars : List Char → Option ℕ
  | ['J', 'A', 'N'] => some 1
  | ['F', 'E', 'B'] => some 2
  | ['M', 'A', 'R'] => some 3
  | ['A', 'P', 'R'] => some 4
  | ['M', 'A', 'Y'] => some 5
  | ['J', 'U', 'N'] => some 6
  | ['J', 'U', 'L'] => some 7
  | ['A', 'U', 'G'] => some 8
  | ['S', 'E', 'P'] => some 9
  | ['O', 'C', 'T'] => some 10
  | ['N', 'O', 'V'] => some 11
  | ['D', 'E', 'C'] => some 12
  | _ => none

/-- Uppercase three-letter name of a month number. -/
def monthChars : ℕ → List Char
  | 1 => ['J', 'A', 'N']
  | 2 => ['F', 'E', 'B']
  | 3 => ['M', 'A', 'R']
  | 4 => ['A', 'P', 'R']
  | 5 => ['M', 'A', 'Y']
  | 6 => ['J', 'U', 'N']
  | 7 => ['J', 'U', 'L']
  | 8 => ['A', 'U', 'G']
  | 9 => ['S', 'E', 'P']
  | 10 => ['O', 'C', 'T']
  | 11 => ['N', 'O', 'V']
  | 12 => ['D', 'E', 'C']
  | _ => []

/-- Python's `%y` pivot: two-digit years 0-68 map into the 2000s,
69-99 into the 1900s. -/
def yearOfYY (yy : ℕ) : ℕ := if yy ≤ 68 then 2000 + yy else 1900 + yy

/-- Gregorian leap-year rule used by `datetime`. -/
def isLeap (y : ℕ) : Bool := decide (y % 4 = 0 ∧ (y % 100 ≠ 0 ∨ y % 400 = 0))

/-- Number of days of a month, as validated by `strptime`. -/
def daysInMonth (m y : ℕ) : ℕ :=
  if m = 2 then (if isLeap y then 29 else 28)
  else if m = 4 ∨ m = 6 ∨ m = 9 ∨ m = 11 then 30
  else 31

/-- `datetime.strptime(s, "%d%b%y")`, modelled on the canonical
`DDMMMYY` Deribit expiry format: a two-digit day, an uppercase
three-letter month, a two-digit year, the day validated against the
month's length. -/
def parseDate? : List Char → Option PDate
  | [d1, d2, m1, m2, m3, y1, y2] =>
    if isDigitC d1 ∧ isDigitC d2 ∧ isDigitC y1 ∧ isDigitC y2 then
      match monthOfChars [m1, m2, m3] with
      | none => none
      | some m =>
        let d := 10 * digitVal d1 + digitVal d2
        let y := yearOfYY (10 * digitVal y1 + digitVal y2)
        if 1 ≤ d ∧ d ≤ daysInMonth m y then some ⟨y, m, d⟩ else none
    else none
  | _ => none

/-- Result record of `parse_instrument_name`. -/
structure ParsedInstrument where
  currency : List Char
  expiry : PDate
  strike : ℚ
  option_type : List Char
  is_call : Bool
  is_put : Bool
deriving DecidableEq

/-- `parse_instrument_name`: split on dashes, require exactly four
fields, a numeric strike and a parseable date; the fourth field itself
is never validated, only compared against `C` and `P`. -/
def parse_instrument_name (name : List Char) : Option ParsedInstrument :=
  match splitDash name with
  | [c, e, s, t] =>
    match parseDigits? s, parseDate? e with
    | some n, some d =>
      some ⟨c, d, (n : ℚ), t, decide (t = ['C']), decide (t = ['P'])⟩
    | _, _ => none
  | _ => none

/-- Two-digit zero-padded decimal rendering. -/
def pad2 (n : ℕ) : List Char := [Nat.digitChar (n / 10), Nat.digitChar (n % 10)]

/-- Canonical decimal rendering of a natural number. -/
def natChars (n : ℕ) : List Char :=
  if n = 0 then ['0'] else ((Nat.digits 10 n).reverse.map Nat.digitChar)

/-- Canonical `DDMMMYY` rendering of a date. -/
def dateChars (d : PDate) : List Char :=
  pad2 d.day ++ monthChars d.month ++ pad2 (d.year % 100)

/-- Canonical `CCY-DDMMMYY-STRIKE-T` instrument name built from raw
fields. -/
def renderName (ccy : List Char) (d : PDate) (strike : ℕ) (t : List Char) : List Char :=
  ccy ++ '-' :: (dateChars d ++ '-' :: (natChars strike ++ '-' :: t))

/-- Reconstruction of an instrument name from parsed fields. -/
def renderParsed (p : ParsedInstrument) : List Char :=
  renderName p.currency p.expiry p.strike.num.toNat p.option_type

/-- Well-formedness of the date fields of a canonical name: a real
calendar day and a year reachable from its last two digits through the
`%y` pivot rule. -/
def validDate (d : PDate) : Prop :=
  1 ≤ d.month ∧ d.month ≤ 12 ∧ 1 ≤ d.day ∧ d.day ≤ daysInMonth d.month d.year ∧
    d.year = yearOfYY (d.year % 100)

instance (d : PDate) : Decidable (validDate d) := by
  unfold validDate
  infer_instance

/-- Splitting a dash-free list yields that single field. -/
theorem splitDash_no_dash (a : List Char) (ha : '-' ∉ a) : splitDash a = [a] := by
  induction a with
  | nil => rfl
  | cons c cs ih =>
    have hc : ¬ c = '-' := fun h => ha (h ▸ List.mem_cons_self c cs)
    have hcs : '-' ∉ cs := fun h => ha (List.mem_cons_of_mem c h)
    simp only [splitDash, if_neg hc, ih hcs]

/-- Splitting peels a dash-free field off the front. -/
theorem splitDash_append (a r : List Char) (ha : '-' ∉ a) :
    splitDash (a ++ '-' :: r) = a :: splitDash r := by
  induction a with
  | nil => simp [splitDash]
  | cons c cs ih =>
    have hc : ¬ c = '-' := fun h => ha (h ▸ List.mem_cons_self c cs)
    have hcs : '-' ∉ cs := fun h => ha (List.mem_cons_of_mem c h)
    rw [List.cons_append, splitDash, if_neg hc, ih hcs]

/-- Characters produced by `Nat.digitChar` on a digit are digits. -/
theorem digitChar_isDigit (k : ℕ) (hk : k < 10) : isDigitC (Nat.digitChar k) = true := by
  interval_cases k <;> decide

/-- `digitVal` inverts `Nat.digitChar` on digits. -/
theorem digitVal_digitChar (k : ℕ) (hk : k < 10) : digitVal (Nat.digitChar k) = k := by
  interval_cases k <;> decide

/-- Digit characters are never the dash. -/
theorem digitChar_ne_dash (k : ℕ) (hk : k < 10) : Nat.digitChar k ≠ '-' := by
  interval_cases k <;> decide

/-- Decimal renderings are nonempty. -/
theorem natChars_ne_nil (n : ℕ) : natChars n ≠ [] := by
  unfold natChars
  split_ifs with h
  · simp
  · intro hcontra
    simp only [List.map_eq_nil, List.reverse_eq_nil_iff] at hcontra
    exact Nat.digits_ne_nil_iff_ne_zero.mpr h hcontra

/-- Decimal renderings consist of digits only. -/
theorem natChars_all_digits (n : ℕ) : (natChars n).all isDigitC = true := by
  unfold natChars
  split_ifs with h
  · decide
  · rw [List.all_eq_true]
    intro c hc
    rw [List.mem_map] at hc
    obtain ⟨k, hk, rfl⟩ := hc
    rw [List.mem_reverse] at hk
    exact digitChar_isDigit k (Nat.digits_lt_base (by norm_num) hk)

/-- Decimal renderings contain no dash. -/
theorem natChars_no_dash (n : ℕ) : '-' ∉ natChars n := by
  unfold natChars
  split_ifs with h
  · decide
  · intro hc
    rw [List.mem_map] at hc
    obtain ⟨k, hk, hkc⟩ := hc
    rw [List.mem_reverse] at hk
    exact digitChar_ne_dash k (Nat.digits_lt_base (by norm_num) hk) hkc

/-- Folding the parser's accumulator over rendered digits recovers the
positional value. -/
theorem foldl_digitChars (L : List ℕ) (hL : ∀ k ∈ L, k < 10) (a : ℕ) :
    (L.reverse.map Nat.digitChar).foldl (fun x c => 10 * x + digitVal c) a =
      a * 10 ^ L.length + Nat.ofDigits 10 L := by
  induction L generalizing a with
  | nil => simp
  | cons k T ih =>
    have hk : k < 10 := hL k (List.mem_cons_self k T)
    have hT : ∀ j ∈ T, j < 10 := fun j hj => hL j (List.mem_cons_of_mem k hj)
    simp only [List.reverse_cons, List.map_append, List.foldl_append, List.map_cons,
      List.map_nil, List.foldl_cons, List.foldl_nil]
    rw [ih hT, digitVal_digitChar k hk, Nat.ofDigits_cons, List.length_cons]
    ring

/-- The strike parser inverts the canonical decimal rendering. -/
theorem parseDigits_natChars (n : ℕ) : parseDigits? (natChars n) = some n := by
  by_cases h : n = 0
  · subst h; decide
  · unfold parseDigits?
    rw [if_neg (natChars_ne_nil n), if_pos (natChars_all_digits n)]
    congr 1
    unfold natChars
    rw [if_neg h, foldl_digitChars _ (fun k hk => Nat.digits_lt_base (by norm_num) hk) 0]
    simp [Nat.ofDigits_digits]

/-- The month parser inverts the month renderer. -/
theorem monthOfChars_monthChars (m : ℕ) (h1 : 1 ≤ m) (h2 : m ≤ 12) :
    monthOfChars (monthChars m) = some m := by
  interval_cases m <;> rfl

/-- Month renderings contain no dash. -/
theorem monthChars_no_dash (m : ℕ) (h1 : 1 ≤ m) (h2 : m ≤ 12) : '-' ∉ monthChars m := by
  interval_cases m <;> decide

/-- Month renderings consist of three characters. -/
theorem monthChars_three (m : ℕ) (h1 : 1 ≤ m) (h2 : m ≤ 12) :
    ∃ c1 c2 c3, monthChars m = [c1, c2, c3] := by
  interval_cases m <;> exact ⟨_, _, _, rfl⟩

/-- Month lengths are below 100. -/
theorem daysInMonth_lt (m y : ℕ) : daysInMonth m y < 100 := by
  unfold daysInMonth
  split_ifs <;> omega

/-- Date renderings contain no dash. -/
theorem dateChars_no_dash (d : PDate) (hd : validDate d) : '-' ∉ dateChars d := by
  obtain ⟨h1, h2, h3, h4, h5⟩ := hd
  have hday : d.day < 100 := lt_of_le_of_lt h4 (daysInMonth_lt _ _)
  intro hmem
  unfold dateChars pad2 at hmem
  simp only [List.mem_append, List.mem_cons, List.not_mem_nil, or_false] at hmem
  rcases hmem with (h | h) | h
  · rcases h with h | h
    · exact digitChar_ne_dash (d.day / 10) (by omega) h.symm
    · exact digitChar_ne_dash (d.day % 10) (Nat.mod_lt _ (by norm_num)) h.symm
  · exact monthChars_no_dash d.month h1 h2 h
  · rcases h with h | h
    · exact digitChar_ne_dash (d.year % 100 / 10) (by omega) h.symm
    · exact digitChar_ne_dash (d.year % 100 % 10) (Nat.mod_lt _ (by norm_num)) h.symm

/-- The date parser inverts the canonical `DDMMMYY` rendering on valid
dates. -/
theorem parseDate_dateChars (d : PDate) (hd : validDate d) :
    parseDate? (dateChars d) = some d := by
  obtain ⟨h1, h2, h3, h4, h5⟩ := hd
  obtain ⟨c1, c2, c3, hm3⟩ := monthChars_three d.month h1 h2
  have hday : d.day < 100 := lt_of_le_of_lt h4 (daysInMonth_lt _ _)
  have hd1 : d.day / 10 < 10 := by omega
  have hd2 : d.day % 10 < 10 := Nat.mod_lt _ (by norm_num)
  have hy1 : d.year % 100 / 10 < 10 := by omega
  have hy2 : d.year % 100 % 10 < 10 := Nat.mod_lt _ (by norm_num)
  have hlist : dateChars d = [Nat.digitChar (d.day / 10), Nat.digitChar (d.day % 10),
      c1, c2, c3, Nat.digitChar (d.year % 100 / 10), Nat.digitChar (d.year % 100 % 10)] := by
    simp [dateChars, pad2, hm3]
  have hmo : monthOfChars [c1, c2, c3] = some d.month :=
    hm3 ▸ monthOfChars_monthChars d.month h1 h2
  rw [hlist]
  simp only [parseDate?]
  rw [if_pos ⟨digitChar_isDigit _ hd1, digitChar_isDigit _ hd2,
    digitChar_isDigit _ hy1, digitChar_isDigit _ hy2⟩, hmo]
  simp only [digitVal_digitChar _ hd1, digitVal_digitChar _ hd2,
    digitVal_digitChar _ hy1, digitVal_digitChar _ hy2, Nat.div_add_mod]
  rw [← h5]
  rw [if_pos ⟨h3, h4⟩]

/-- Parsing a canonically rendered name succeeds, with the fourth field
taken over verbatim and compared against `C` and `P` only. -/
theorem parse_renderName (ccy : List Char) (d : PDate) (strike : ℕ) (t : List Char)
    (hc : '-' ∉ ccy) (hd : validDate d) (ht : '-' ∉ t) :
    parse_instrument_name (renderName ccy d strike t) =
      some ⟨ccy, d, (strike : ℚ), t, decide (t = ['C']), decide (t = ['P'])⟩ := by
  have hsplit : splitDash (renderName ccy d strike t) =
      [ccy, dateChars d, natChars strike, t] := by
    unfold renderName
    rw [splitDash_append _ _ hc, splitDash_append _ _ (dateChars_no_dash d hd),
      splitDash_append _ _ (natChars_no_dash strike), splitDash_no_dash t ht]
  simp only [parse_instrument_name, hsplit, parseDigits_natChars,
    parseDate_dateChars d hd]

/-- C9: every valid canonical name `CCY-DDMMMYY-STRIKE-{C|P}` parses,
and rendering the parsed fields back reproduces the original name
character for character. -/
theorem C9_parse_roundtrip (ccy : List Char) (d : PDate) (strike : ℕ) (t : List Char)
    (hc : '-' ∉ ccy) (hd : validDate d) (ht : t = ['C'] ∨ t = ['P']) :
    parse_instrument_name (renderName ccy d strike t) =
      some ⟨ccy, d, (strike : ℚ), t, decide (t = ['C']), decide (t = ['P'])⟩ ∧
    renderParsed ⟨ccy, d, (strike : ℚ), t, decide (t = ['C']), decide (t = ['P'])⟩ =
      renderName ccy d strike t := by
  have htd : '-' ∉ t := by rcases ht with rfl | rfl <;> decide
  refine ⟨parse_renderName ccy d strike t hc hd htd, ?_⟩
  unfold renderParsed
  simp only [Rat.num_natCast, Int.toNat_natCast]

/-- Witness for C9 at the concrete name `BTC-01JAN25-50000-C`. -/
theorem C9_parse_roundtrip_witness :
    ('-' ∉ ['B', 'T', 'C']) ∧ validDate ⟨2025, 1, 1⟩ ∧
    ((['C'] : List Char) = ['C'] ∨ (['C'] : List Char) = ['P']) ∧
    (parse_instrument_name (renderName ['B', 'T', 'C'] ⟨2025, 1, 1⟩ 50000 ['C']) =
      some ⟨['B', 'T', 'C'], ⟨2025, 1, 1⟩, (50000 : ℚ), ['C'],
        decide ((['C'] : List Char) = ['C']), decide ((['C'] : List Char) = ['P'])⟩ ∧
     renderParsed ⟨['B', 'T', 'C'], ⟨2025, 1, 1⟩, (50000 : ℚ), ['C'],
        decide ((['C'] : List Char) = ['C']), decide ((['C'] : List Char) = ['P'])⟩ =
       renderName ['B', 'T', 'C'] ⟨2025, 1, 1⟩ 50000 ['C']) :=
  ⟨by decide, by decide, Or.inl rfl,
    C9_parse_roundtrip ['B', 'T', 'C'] ⟨2025, 1, 1⟩ 50000 ['C']
      (by decide) (by decide) (Or.inl rfl)⟩

/-- One instrument's open-interest contribution in `process_timeframe`:
nonpositive open interest is skipped, calls accumulate on the call side,
everything else accumulates on the put side. -/
def oiStep (acc : List (ℚ × ℚ) × List (ℚ × ℚ)) (i : Instrument) :
    List (ℚ × ℚ) × List (ℚ × ℚ) :=
  if i.open_interest ≤ 0 then acc
  else if i.is_call then (addOI acc.1 i.strike i.open_interest, acc.2)
  else (acc.1, addOI acc.2 i.strike i.open_interest)

/-- Per-side strike/open-interest maps of `process_timeframe`. -/
def collectStrikes (instruments : List Instrument) :
    List (ℚ × ℚ) × List (ℚ × ℚ) :=
  instruments.foldl oiStep ([], [])

/-- `addOI` increases the summed values by exactly the added amount. -/
theorem addOI_sum (m : List (ℚ × ℚ)) (k v : ℚ) :
    ((addOI m k v).map Prod.snd).sum = (m.map Prod.snd).sum + v := by
  induction m with
  | nil => simp [addOI]
  | cons p ps ih =>
    unfold addOI
    split_ifs with h
    · simp only [List.map_cons, List.sum_cons]
      ring
    · simp only [List.map_cons, List.sum_cons, ih]
      ring

/-- The open-interest fold splits the total open interest between the
call side and the put side exactly along the `is_call` flag. -/
theorem oiFold_sums (l : List Instrument) (acc : List (ℚ × ℚ) × List (ℚ × ℚ)) :
    ((l.foldl oiStep acc).1.map Prod.snd).sum =
      (acc.1.map Prod.snd).sum +
        ((l.filter (fun i => i.is_call && decide (0 < i.open_interest))).map
          (fun i => i.open_interest)).sum ∧
    ((l.foldl oiStep acc).2.map Prod.snd).sum =
      (acc.2.map Prod.snd).sum +
        ((l.filter (fun i => !i.is_call && decide (0 < i.open_interest))).map
          (fun i => i.open_interest)).sum := by
  induction l generalizing acc with
  | nil => simp
  | cons i l ih =>
    by_cases hoi : i.open_interest ≤ 0
    · have hstep : oiStep acc i = acc := by simp [oiStep, hoi]
      have hfc : (i :: l).filter (fun i => i.is_call && decide (0 < i.open_interest)) =
          l.filter (fun i => i.is_call && decide (0 < i.open_interest)) := by
        simp [List.filter_cons, not_lt.mpr hoi]
      have hfp : (i :: l).filter (fun i => !i.is_call && decide (0 < i.open_interest)) =
          l.filter (fun i => !i.is_call && decide (0 < i.open_interest)) := by
        simp [List.filter_cons, not_lt.mpr hoi]
      rw [List.foldl_cons, hstep, hfc, hfp]
      exact ih acc
    · have hpos : 0 < i.open_interest := lt_of_not_le hoi
      cases hic : i.is_call with
      | true =>
        have hstep : oiStep acc i = (addOI acc.1 i.strike i.open_interest, acc.2) := by
          simp [oiStep, hoi, hic]
        have hfc : (i :: l).filter (fun i => i.is_call && decide (0 < i.open_interest)) =
            i :: l.filter (fun i => i.is_call && decide (0 < i.open_interest)) := by
          simp [List.filter_cons, hic, hpos]
        have hfp : (i :: l).filter (fun i => !i.is_call && decide (0 < i.open_interest)) =
            l.filter (fun i => !i.is_call && decide (0 < i.open_interest)) := by
          simp [List.filter_cons, hic]
        obtain ⟨ih1, ih2⟩ := ih (addOI acc.1 i.strike i.open_interest, acc.2)
        rw [addOI_sum] at ih1
        rw [List.foldl_cons, hstep, hfc, hfp]
        refine ⟨?_, ih2⟩
        rw [ih1, List.map_cons, List.sum_cons]
        ring
      | false =>
        have hstep : oiStep acc i = (acc.1, addOI acc.2 i.strike i.open_interest) := by
          simp [oiStep, hoi, hic]
        have hfc : (i :: l).filter (fun i => i.is_call && decide (0 < i.open_interest)) =
            l.filter (fun i => i.is_call && decide (0 < i.open_interest)) := by
          simp [List.filter_cons, hic]
        have hfp : (i :: l).filter (fun i => !i.is_call && decide (0 < i.open_interest)) =
            i :: l.filter (fun i => !i.is_call && decide (0 < i.open_interest)) := by
          simp [List.filter_cons, hic, hpos]
        obtain ⟨ih1, ih2⟩ := ih (acc.1, addOI acc.2 i.strike i.open_interest)
        rw [addOI_sum] at ih2
        rw [List.foldl_cons, hstep, hfc, hfp]
        refine ⟨ih1, ?_⟩
        rw [ih2, List.map_cons, List.sum_cons]
        ring

/-- C10: a name whose fourth dash-separated field is arbitrary (and
dash-free) still parses — the option-type field is never validated,
`is_call` holding only for the exact field `C` — and open-interest
aggregation credits every non-`C` instrument to the put side: the put
map's total is the sum over exactly the non-call instruments with
positive open interest, the call map's total the sum over the
call-flagged ones. -/
theorem C10_unvalidated_option_type (ccy : List Char) (d : PDate) (strike : ℕ)
    (t : List Char) (hc : '-' ∉ ccy) (hd : validDate d) (ht : '-' ∉ t)
    (instruments : List Instrument) :
    parse_instrument_name (renderName ccy d strike t) =
      some ⟨ccy, d, (strike : ℚ), t, decide (t = ['C']), decide (t = ['P'])⟩ ∧
    ((collectStrikes instruments).1.map Prod.snd).sum =
      ((instruments.filter (fun i => i.is_call && decide (0 < i.open_interest))).map
        (fun i => i.open_interest)).sum ∧
    ((collectStrikes instruments).2.map Prod.snd).sum =
      ((instruments.filter (fun i => !i.is_call && decide (0 < i.open_interest))).map
        (fun i => i.open_interest)).sum := by
  refine ⟨parse_renderName ccy d strike t hc hd ht, ?_, ?_⟩
  · simpa using (oiFold_sums instruments ([], [])).1
  · simpa using (oiFold_sums instruments ([], [])).2

/-- Witness for C10 at the lowercase option type `c` and one put-side
instrument. -/
theorem C10_unvalidated_option_type_witness :
    ('-' ∉ ['B', 'T', 'C']) ∧ validDate ⟨2024, 2, 29⟩ ∧ ('-' ∉ ['c']) ∧
    (parse_instrument_name (renderName ['B', 'T', 'C'] ⟨2024, 2, 29⟩ 50 ['c']) =
      some ⟨['B', 'T', 'C'], ⟨2024, 2, 29⟩, (50 : ℚ), ['c'],
        decide ((['c'] : List Char) = ['C']), decide ((['c'] : List Char) = ['P'])⟩ ∧
    ((collectStrikes [⟨none, 50, 7, 0, false⟩]).1.map Prod.snd).sum =
      ((([⟨none, 50, 7, 0, false⟩] : List Instrument).filter
          (fun i => i.is_call && decide (0 < i.open_interest))).map
        (fun i => i.open_interest)).sum ∧
    ((collectStrikes [⟨none, 50, 7, 0, false⟩]).2.map Prod.snd).sum =
      ((([⟨none, 50, 7, 0, false⟩] : List Instrument).filter
          (fun i => !i.is_call && decide (0 < i.open_interest))).map
        (fun i => i.open_interest)).sum) :=
  ⟨by decide, by decide, by decide,
    C10_unvalidated_option_type ['B', 'T', 'C'] ⟨2024, 2, 29⟩ 50 ['c']
      (by decide) (by decide) (by decide) [⟨none, 50, 7, 0, false⟩]⟩

/-- Per-strike flow accumulator of `analyze_complete_options_flow`. -/
structure FlowData where
  total_volume : ℚ
  net_flow : ℚ
  call_volume : ℚ
  put_volume : ℚ
  weighted_flow : ℚ
deriving DecidableEq

/-- Python dictionary update with a zero-initialised missing entry. -/
def updateFlow : List (ℚ × FlowData) → ℚ → (FlowData → FlowData) → List (ℚ × FlowData)
  | [], k, f => [(k, f ⟨0, 0, 0, 0, 0⟩)]
  | p :: ps, k, f => if p.1 = k then (p.1, f p.2) :: ps else p :: updateFlow ps k f

/-- `calculate_delta_simple`: linear moneyness clamp of the delta. -/
def calculate_delta_simple (spot_price strike time_to_expiry : ℚ) (is_call : Bool) : ℚ :=
  if time_to_expiry ≤ 0 then
    if (is_call ∧ strike < spot_price) ∨ (¬ is_call ∧ spot_price < strike) then 1 else 0
  else
    let moneyness := spot_price / strike
    if is_call then max 0.05 (min 0.95 (0.5 + 0.4 * (moneyness - 1)))
    else max 0.05 (min 0.95 (0.5 - 0.4 * (moneyness - 1)))

/-- Strike a trade contributes under, as read by
`analyze_complete_options_flow` from the instrument name; `none` when
the trade is skipped before any accumulation happens (empty name, fewer
than four fields, non-numeric strike). -/
def tradeStrike? (t : Trade) : Option ℚ :=
  if t.instrument_name = [] then none
  else
    let parts := splitDash t.instrument_name
    if parts.length < 4 then none
    else (parseDigits? (parts.getD 2 [])).map (fun n => (n : ℚ))

/-- One trade of the flow loop.  The `tw` function abstracts the time
weight `exp(-hours_ago/12)`; the verified properties hold for every
weight function, the exponential one included.  A zero strike
reproduces the `ZeroDivisionError` raised inside the delta
approximation and caught by the loop's `except`: the notional has
already been added to the running total, but the strike map is left
untouched. -/
def flowStep (tw : ℤ → ℚ) (spot : ℚ) (acc : List (ℚ × FlowData) × ℚ) (t : Trade) :
    List (ℚ × FlowData) × ℚ :=
  match tradeStrike? t with
  | none => acc
  | some strike =>
    let option_type := (splitDash t.instrument_name).getD 3 []
    if t.amount ≤ 0 ∨ t.price ≤ 0 then acc
    else
      let notional := t.amount * t.price * spot
      let total := acc.2 + notional
      if strike = 0 then (acc.1, total)
      else
        let time_weight := tw t.timestamp
        let is_call := decide (option_type = ['C'])
        let delta := calculate_delta_simple spot strike (1 / 365) is_call
        let delta_exposure := notional * delta
        let flow_direction : ℚ := if t.direction = "buy" then 1 else -1
        (updateFlow acc.1 strike (fun d =>
          { total_volume := d.total_volume + notional
            net_flow := d.net_flow + delta_exposure * flow_direction
            call_volume := if is_call then d.call_volume + notional else d.call_volume
            put_volume := if is_call then d.put_volume else d.put_volume + notional
            weighted_flow :=
              d.weighted_flow + delta_exposure * flow_direction * time_weight }),
          total)

/-- Strike-flow map and running total notional of
`analyze_complete_options_flow`. -/
def flowAccum (tw : ℤ → ℚ) (spot : ℚ) (trades : List Trade) :
    List (ℚ × FlowData) × ℚ :=
  trades.foldl (flowStep tw spot) ([], 0)

/-- Python's first-max over the strike-flow entries, keyed by total
volume (the HVS selection). -/
def maxByTV? : List (ℚ × FlowData) → Option (ℚ × FlowData)
  | [] => none
  | x :: xs =>
    some (xs.foldl (fun b q => if b.2.total_volume < q.2.total_volume then q else b) x)

/-- Descending comparison on the second component, used by the
`reverse=True` sorts of the flow analyzer. -/
def sndGE (a b : ℚ × ℚ) : Prop := b.2 ≤ a.2

instance : DecidableRel sndGE :=
  fun a b => inferInstanceAs (Decidable (b.2 ≤ a.2))

/-- Descending lexicographic comparison on `(balance ratio, volume)`
keys, used by the Max-Pain sort. -/
def lexGE (a b : ℚ × ℚ × ℚ) : Prop :=
  b.2.1 < a.2.1 ∨ (b.2.1 = a.2.1 ∧ b.2.2 ≤ a.2.2)

instance : DecidableRel lexGE :=
  fun a b => inferInstanceAs (Decidable (_ ∨ _))

/-- Head-of-list level emission: Python's `sorted_candidates[0][0]`
guarded by a nonemptiness check. -/
def levelOfHead {β : Type} (name : String) : List (ℚ × β) → List (String × ℚ)
  | [] => []
  | x :: _ => [(name, x.1)]

/-- Level construction of `analyze_complete_options_flow` on a computed
strike-flow map: HVS, Max Pain Flow, Call Flow Resistance, Put Flow
Support, and — only for a positive total volume — VWAS. -/
def flowLevels (spot : ℚ) (sf : List (ℚ × FlowData)) (total_volume : ℚ) :
    List (String × ℚ) :=
  (match maxByTV? sf with
    | none => []
    | some p => [("HVS", p.1)]) ++
  levelOfHead "Max Pain Flow"
    (List.insertionSort lexGE (sf.filterMap (fun p =>
      if 0 < p.2.call_volume ∧ 0 < p.2.put_volume then
        some (p.1, min p.2.call_volume p.2.put_volume / max p.2.call_volume p.2.put_volume,
          p.2.total_volume)
      else none))) ++
  levelOfHead "Call Flow Resistance"
    (List.insertionSort sndGE (sf.filterMap (fun p =>
      if spot < p.1 ∧ p.2.put_volume < p.2.call_volume then
        some (p.1, p.2.weighted_flow)
      else none))) ++
  levelOfHead "Put Flow Support"
    (List.insertionSort sndGE (sf.filterMap (fun p =>
      if p.1 < spot ∧ p.2.call_volume < p.2.put_volume then
        some (p.1, |p.2.weighted_flow|)
      else none))) ++
  (if 0 < total_volume then
    [("VWAS", (sf.map (fun p => p.1 * p.2.total_volume)).sum / total_volume)]
  else [])

/-- `analyze_complete_options_flow`: empty input and an empty strike
map short-circuit to the empty level map. -/
def analyzeCompleteOptionsFlow (tw : ℤ → ℚ) (spot : ℚ) (trades : List Trade) :
    List (String × ℚ) :=
  if trades = [] then []
  else if (flowAccum tw spot trades).1 = [] then []
  else flowLevels spot (flowAccum tw spot trades).1 (flowAccum tw spot trades).2

/-- Lookup in a name-to-price level dictionary. -/
def lookupLevel (m : List (String × ℚ)) (k : String) : Option ℚ :=
  (m.find? (fun p => decide (p.1 = k))).map Prod.snd

/-- Level lookup distributes over append. -/
theorem lookupLevel_append (m m' : List (String × ℚ)) (k : String) :
    lookupLevel (m ++ m') k = (lookupLevel m k).or (lookupLevel m' k) := by
  unfold lookupLevel
  rw [List.find?_append, Option.map_or']

/-- Head-of-list levels never answer for a different name. -/
theorem lookupLevel_levelOfHead {β : Type} (name k : String) (l : List (ℚ × β))
    (h : name ≠ k) : lookupLevel (levelOfHead name l) k = none := by
  cases l with
  | nil => rfl
  | cons x xs => simp [levelOfHead, lookupLevel, h]

/-- `updateFlow` never produces the empty map. -/
theorem updateFlow_ne_nil (m : List (ℚ × FlowData)) (k : ℚ) (f : FlowData → FlowData) :
    updateFlow m k f ≠ [] := by
  cases m with
  | nil => simp [updateFlow]
  | cons p ps =>
    unfold updateFlow
    split_ifs <;> simp

/-- A flow step never empties the strike map. -/
theorem flowStep_fst_ne_nil (tw : ℤ → ℚ) (spot : ℚ) (acc : List (ℚ × FlowData) × ℚ)
    (t : Trade) (h : acc.1 ≠ []) : (flowStep tw spot acc t).1 ≠ [] := by
  unfold flowStep
  cases tradeStrike? t with
  | none => exact h
  | some strike =>
    dsimp only
    split_ifs <;> first | exact h | exact updateFlow_ne_nil _ _ _

/-- Folding flow steps never empties a nonempty strike map. -/
theorem flowFold_fst_ne_nil (tw : ℤ → ℚ) (spot : ℚ) (ts : List Trade)
    (acc : List (ℚ × FlowData) × ℚ) (h : acc.1 ≠ []) :
    (ts.foldl (flowStep tw spot) acc).1 ≠ [] := by
  induction ts generalizing acc with
  | nil => exact h
  | cons t ts ih =>
    simp only [List.foldl_cons]
    exact ih _ (flowStep_fst_ne_nil tw spot acc t h)

/-- When the strike map stays empty, no trade ever contributed, so the
total notional is unchanged — provided no trade parses to the zero
strike (the one case where Python counts the notional and then aborts
the iteration on a `ZeroDivisionError`). -/
theorem flowFold_empty_total (tw : ℤ → ℚ) (spot : ℚ) (ts : List Trade)
    (hval : ∀ t ∈ ts, tradeStrike? t ≠ some 0) (acc : List (ℚ × FlowData) × ℚ)
    (hacc : acc.1 = []) (hres : (ts.foldl (flowStep tw spot) acc).1 = []) :
    (ts.foldl (flowStep tw spot) acc).2 = acc.2 := by
  induction ts generalizing acc with
  | nil => rfl
  | cons t ts ih =>
    simp only [List.foldl_cons] at hres ⊢
    have hval' : ∀ t' ∈ ts, tradeStrike? t' ≠ some 0 :=
      fun t' ht' => hval t' (List.mem_cons_of_mem t ht')
    have hsne : (flowStep tw spot acc t).1 = [] := by
      by_contra hne
      exact flowFold_fst_ne_nil tw spot ts _ hne hres
    have hstep : flowStep tw spot acc t = acc := by
      unfold flowStep at hsne ⊢
      cases hts : tradeStrike? t with
      | none => rfl
      | some strike =>
        rw [hts] at hsne
        dsimp only at hsne ⊢
        by_cases h1 : t.amount ≤ 0 ∨ t.price ≤ 0
        · rw [if_pos h1]
        · rw [if_neg h1] at hsne ⊢
          by_cases h2 : strike = 0
          · exact absurd (h2 ▸ hts) (hval t (List.mem_cons_self t ts))
          · rw [if_neg h2] at hsne
            exact absurd hsne (updateFlow_ne_nil _ _ _)
    rw [hstep] at hres ⊢
    exact ih hval' acc hacc hres

/-- The VWAS entry of `flowLevels`: present with the notional-weighted
average strike exactly when the total volume is positive. -/
theorem flowLevels_vwas (spot : ℚ) (sf : List (ℚ × FlowData)) (tot : ℚ)
    (hsf : sf ≠ []) :
    lookupLevel (flowLevels spot sf tot) "VWAS" =
      if 0 < tot then some ((sf.map (fun p => p.1 * p.2.total_volume)).sum / tot)
      else none := by
  obtain ⟨x, xs, rfl⟩ := List.exists_cons_of_ne_nil hsf
  unfold flowLevels
  rw [lookupLevel_append, lookupLevel_append, lookupLevel_append, lookupLevel_append]
  have h1 : lookupLevel (match maxByTV? (x :: xs) with
      | none => []
      | some p => [("HVS", p.1)]) "VWAS" = none := by
    simp [maxByTV?, lookupLevel]
  rw [h1,
    lookupLevel_levelOfHead "Max Pain Flow" "VWAS" _ (by decide),
    lookupLevel_levelOfHead "Call Flow Resistance" "VWAS" _ (by decide),
    lookupLevel_levelOfHead "Put Flow Support" "VWAS" _ (by decide)]
  split_ifs with h
  · simp [lookupLevel]
  · rfl

/-- C8: for trades none of which parses to a zero strike, the flow
analyzer emits a VWAS level equal to the sum over strikes of strike
times that strike's total notional divided by the running total
notional whenever that total is positive, and omits the VWAS level
(rather than dividing by zero) when the total is zero. -/
theorem C8_vwas (tw : ℤ → ℚ) (spot : ℚ) (trades : List Trade)
    (hval : ∀ t ∈ trades, tradeStrike? t ≠ some 0) :
    (0 < (flowAccum tw spot trades).2 →
      lookupLevel (analyzeCompleteOptionsFlow tw spot trades) "VWAS" =
        some (((flowAccum tw spot trades).1.map
          (fun p => p.1 * p.2.total_volume)).sum / (flowAccum tw spot trades).2)) ∧
    ((flowAccum tw spot trades).2 = 0 →
      lookupLevel (analyzeCompleteOptionsFlow tw spot trades) "VWAS" = none) := by
  by_cases hts : trades = []
  · subst hts
    exact ⟨fun h => absurd h (by norm_num [flowAccum]), fun _ => rfl⟩
  · unfold analyzeCompleteOptionsFlow
    rw [if_neg hts]
    by_cases hsf : (flowAccum tw spot trades).1 = []
    · have htot : (flowAccum tw spot trades).2 = 0 :=
        flowFold_empty_total tw spot trades hval ([], 0) rfl hsf
      rw [if_pos hsf]
      exact ⟨fun h => absurd (htot ▸ h) (lt_irrefl 0), fun _ => rfl⟩
    · rw [if_neg hsf]
      have hlv := flowLevels_vwas spot _ (flowAccum tw spot trades).2 hsf
      constructor
      · intro h
        rw [hlv, if_pos h]
      · intro h
        rw [hlv, if_neg (by rw [h]; exact lt_irrefl 0)]

/-- Concrete trade used by the C8 witness. -/
def c8Trade : Trade :=
  { trade_id := none
    instrument_name := "BTC-01JAN25-2-C".toList
    amount := 1
    price := 1
    direction := "buy"
    timestamp := 0 }

/-- Witness for C8 at a concrete one-trade tape. -/
theorem C8_vwas_witness :
    (∀ t ∈ [c8Trade], tradeStrike? t ≠ some 0) ∧
    0 < (flowAccum (fun _ => 1) 1 [c8Trade]).2 ∧
    lookupLevel (analyzeCompleteOptionsFlow (fun _ => 1) 1 [c8Trade]) "VWAS" =
      some (((flowAccum (fun _ => 1) 1 [c8Trade]).1.map
        (fun p => p.1 * p.2.total_volume)).sum /
          (flowAccum (fun _ => 1) 1 [c8Trade]).2) := by
  have hval : ∀ t ∈ [c8Trade], tradeStrike? t ≠ some 0 := by
    intro t ht hc
    rw [List.mem_singleton] at ht
    subst ht
    rw [show tradeStrike? c8Trade = some 2 from rfl, Option.some.injEq] at hc
    norm_num at hc
  have h2 : 0 < (flowAccum (fun _ => 1) 1 [c8Trade]).2 := by
    have h : tradeStrike? c8Trade = some 2 := rfl
    simp only [flowAccum, List.foldl_cons, List.foldl_nil, flowStep, h]
    norm_num [c8Trade, updateFlow]
  exact ⟨hval, h2, (C8_vwas (fun _ => 1) 1 [c8Trade] hval).1 h2⟩

/-- Python's `round`: round half to even. -/
def pyRound (x : ℚ) : ℤ :=
  let f := ⌊x⌋
  let r := x - f
  if r < 1/2 then f
  else if 1/2 < r then f + 1
  else if f % 2 = 0 then f else f + 1

/-- Price bucket of the volume profiler: nearest 10 above 1000, else
nearest tenth. -/
def volumeLevel (price : ℚ) : ℚ :=
  if 1000 < price then (pyRound (price / 10) : ℚ) * 10
  else (pyRound (price * 10) : ℚ) / 10

/-- Python's first-max over dictionary entries keyed by the value. -/
def maxPair? : List (ℚ × ℚ) → Option (ℚ × ℚ)
  | [] => none
  | x :: xs => some (xs.foldl (fun b q => if b.2 < q.2 then q else b) x)

/-- `calculate_volume_profile_levels`: bucket futures trades by rounded
price, sum traded amounts, report the highest-volume level as
`(name, price, volume)`. -/
def calculate_volume_profile_levels (trades : List Trade) (spot : ℚ) :
    List (String × ℚ × ℚ) :=
  if trades = [] then []
  else
    match maxPair? (trades.foldl
      (fun m t =>
        if t.price ≤ 0 ∨ t.amount ≤ 0 then m
        else addOI m (volumeLevel t.price) t.amount) []) with
    | none => []
    | some p => [("HVL", p.1, p.2)]

/-- `get_avg_iv`: mean of the positive IVs, else the fallback. -/
def get_avg_iv (ivs : List ℚ) (fallback : ℚ) : ℚ :=
  let valid := ivs.filter (fun iv => decide (0 < iv))
  if valid = [] then fallback else valid.sum / valid.length

/-- `calculate_atm_iv`: average positive mark IV of the instruments
within 5% of spot, with fallback 50. -/
def calculate_atm_iv (spot : ℚ) (instruments : List Instrument) : ℚ :=
  if instruments = [] then 50
  else
    get_avg_iv
      (instruments.filterMap (fun i =>
        if |i.strike - spot| / spot < 0.05 ∧ 0 < i.mark_iv then some i.mark_iv
        else none))
      50

/-- `calculate_dynamic_band`: IV-scaled base band times a
time-to-expiry factor. -/
def calculate_dynamic_band (iv_pct time_to_expiry_days : ℚ) : ℚ :=
  let base_band := max 10 (min 50 (iv_pct * 0.3))
  let time_factor :=
    if time_to_expiry_days ≤ 1 then 1
    else if time_to_expiry_days ≤ 7 then 1.2
    else min 2 (1 + (time_to_expiry_days - 7) / 20)
  base_band * time_factor

/-- Level-name suffixing of `process_timeframe`. -/
def mkLevelName (base tf : String) : String :=
  if tf = "" then base else base ++ " " ++ tf

/-- Result of `process_timeframe`: emitted levels, per-side filtered
strike counts, per-side summed open interest. -/
structure TfResult where
  levels : List (String × ℚ)
  ncalls : ℕ
  nputs : ℕ
  call_oi : ℚ
  put_oi : ℚ

/-- `process_timeframe`: aggregate per-side open interest, band-filter
the strikes, and emit Call Resistance / Put Support at the max-OI
filtered strikes. -/
def process_timeframe (spot band : ℚ) (tfName : String)
    (instruments : List Instrument) : TfResult :=
  let maps := collectStrikes instruments
  let fc := filter_call_strikes spot band maps.1
  let fp := filter_put_strikes spot band maps.2
  let callL := match maxPair? fc with
    | none => []
    | some p => [(mkLevelName "Call Resistance" tfName, p.1)]
  let putL := match maxPair? fp with
    | none => []
    | some p => [(mkLevelName "Put Support" tfName, p.1)]
  ⟨callL ++ putL, fc.length, fp.length, (fc.map Prod.snd).sum, (fp.map Prod.snd).sum⟩

/-- `calc_pc_ratio`: put/call open-interest ratio, 0 when no call OI. -/
def calc_pc_ratio (call_oi put_oi : ℚ) : ℚ :=
  if 0 < call_oi then put_oi / call_oi else 0

/-- Python dictionary assignment `d[k] = v`: overwrite in place or
append. -/
def dictInsert : List (String × ℚ) → String → ℚ → List (String × ℚ)
  | [], k, v => [(k, v)]
  | p :: ps, k, v => if p.1 = k then (k, v) :: ps else p :: dictInsert ps k v

/-- Python `dict.update`. -/
def dictUpdate (m adds : List (String × ℚ)) : List (String × ℚ) :=
  adds.foldl (fun acc p => dictInsert acc p.1 p.2) m

/-- Aggregated result of `calculate_option_levels`. -/
structure OptionAnalysis where
  levels : List (String × ℚ)
  put_call_ratios : List (String × ℚ)
  iv_data : List (String × ℚ)

/-- `calculate_option_levels`: group instruments by timeframe, compute
ATM IVs and dynamic bands, process each timeframe, add the 0DTE gamma
wall.  `none` models the bare `{}` returned for an empty instrument
list. -/
def calculateOptionLevels (now : ℤ) (instruments : List Instrument) (spot : ℚ) :
    Option OptionAnalysis :=
  if instruments = [] then none
  else
    let withExpiry := instruments.filterMap (fun i => i.expiry_day.map (fun e => (i, e)))
    let currentI :=
      (withExpiry.filter (fun p => decide (classify now p.2 = .current))).map Prod.fst
    let dte0I :=
      (withExpiry.filter (fun p => decide (classify now p.2 = .dte0))).map Prod.fst
    let week1I :=
      (withExpiry.filter (fun p => decide (classify now p.2 = .week1))).map Prod.fst
    let month1I :=
      (withExpiry.filter (fun p => decide (classify now p.2 = .month1))).map Prod.fst
    let current_iv := calculate_atm_iv spot currentI
    let dte0_iv := calculate_atm_iv spot dte0I
    let week1_iv := calculate_atm_iv spot week1I
    let month1_iv := calculate_atm_iv spot month1I
    let rC := process_timeframe spot (calculate_dynamic_band current_iv 7) "" currentI
    let r0 := process_timeframe spot (calculate_dynamic_band dte0_iv 0.1) "0DTE" dte0I
    let rW := process_timeframe spot (calculate_dynamic_band week1_iv 7) "1W" week1I
    let rM := process_timeframe spot (calculate_dynamic_band month1_iv 30) "1M" month1I
    let gw := calculate_gamma_wall dte0I spot
    some
      { levels :=
          dictUpdate (dictUpdate (dictUpdate (dictUpdate (dictUpdate [] rC.levels)
            r0.levels) rW.levels) rM.levels) gw
        put_call_ratios :=
          [("Current", calc_pc_ratio rC.call_oi rC.put_oi),
           ("0DTE", calc_pc_ratio r0.call_oi r0.put_oi),
           ("1W", calc_pc_ratio rW.call_oi rW.put_oi),
           ("1M", calc_pc_ratio rM.call_oi rM.put_oi)]
        iv_data :=
          [("current", current_iv), ("dte0", dte0_iv),
           ("week1", week1_iv), ("month1", month1_iv)] }

/-- `option_analysis.get("levels", {})`. -/
def optionLevelsOf : Option OptionAnalysis → List (String × ℚ)
  | none => []
  | some a => a.levels

/-- `option_analysis.get("put_call_ratios", {})`. -/
def pcRatiosOf : Option OptionAnalysis → List (String × ℚ)
  | none => []
  | some a => a.put_call_ratios

/-- `option_analysis.get("iv_data", {})`. -/
def ivDataOf : Option OptionAnalysis → List (String × ℚ)
  | none => []
  | some a => a.iv_data

/-- 24h statistics consumed by `calculate_1d_levels`. -/
structure Stats24h where
  high_24h : ℚ
  low_24h : ℚ

/-- Metadata returned next to the key levels. -/
structure Metadata where
  spot_price : ℚ
  put_call_ratios : List (String × ℚ)
  iv_data : List (String × ℚ)
  instruments_analyzed : ℕ
  futures_trades : ℕ
  options_trades : ℕ

/-- `generate_key_levels` on already-fetched data: fails exactly on a
nonpositive spot price, otherwise merges the 1D levels, HVL, option
levels and flow levels and composes the confidence-scored, sorted key
levels. -/
def generateKeyLevels (tw : ℤ → ℚ) (now : ℤ) (spot : ℚ) (stats : Stats24h)
    (instruments : List Instrument) (futures_trades options_trades : List Trade) :
    Except String (List KeyLevel × Metadata) :=
  if spot ≤ 0 then Except.error "Failed to fetch spot price"
  else
    let hvl_levels := calculate_volume_profile_levels futures_trades spot
    let option_analysis := calculateOptionLevels now instruments spot
    let flow_levels := analyzeCompleteOptionsFlow tw spot options_trades
    let base :=
      (if 0 < stats.high_24h then [("1D Max", stats.high_24h)] else []) ++
        (if 0 < stats.low_24h then [("1D Min", stats.low_24h)] else [])
    let with_hvl := hvl_levels.foldl (fun m h => dictInsert m h.1 h.2.1) base
    let all_levels :=
      dictUpdate (dictUpdate with_hvl (optionLevelsOf option_analysis)) flow_levels
    Except.ok
      (composeKeyLevels all_levels spot,
        { spot_price := spot
          put_call_ratios := pcRatiosOf option_analysis
          iv_data := ivDataOf option_analysis
          instruments_analyzed := instruments.length
          futures_trades := futures_trades.length
          options_trades := options_trades.length })

/-- C7: each analytics stage returns an empty level map on empty input
instead of raising, and the overall key-level generation fails exactly
when the spot price is missing or nonpositive (a missing spot price is
reported as 0 by the fetcher), producing no levels in that case. -/
theorem C7_empty_inputs_and_spot_guard (tw : ℤ → ℚ) (now : ℤ) (spot : ℚ)
    (stats : Stats24h) (instruments : List Instrument)
    (futures_trades options_trades : List Trade) :
    analyzeCompleteOptionsFlow tw spot [] = [] ∧
    calculate_volume_profile_levels [] spot = [] ∧
    calculateOptionLevels now [] spot = none ∧
    optionLevelsOf (calculateOptionLevels now [] spot) = [] ∧
    ((∃ e, generateKeyLevels tw now spot stats instruments futures_trades
        options_trades = Except.error e) ↔ spot ≤ 0) := by
  refine ⟨rfl, rfl, rfl, rfl, ?_⟩
  unfold generateKeyLevels
  split_ifs with h
  · exact ⟨fun _ => h, fun _ => ⟨"Failed to fetch spot price", rfl⟩⟩
  · constructor
    · intro ⟨e, he⟩
      exact absurd he (by simp)
    · intro hs
      exact absurd hs h

end Analytics
